import Mathlib

/-!
# Verification of the MyoLinuxCpp GATT client core

A shallow embedding of the in-scope core of the MyoLinuxCpp repository
(Packet Buffer, GATT client protocol state machine, addressing helper),
together with theorems settling the specification's claims about it.

Bytes are modelled as `Nat` values with explicit `< 256` bounds where they
matter; a `Buffer` (C++ `std::vector<unsigned char>`) is a `List Nat`.
Only the headers of the repository are available, so the declared types and
constants are embedded from the source and the method bodies are modelled
from the specification, as noted on each definition.
-/

namespace MyoLinux

/-- `Buffer` from buffer.h: `using Buffer = std::vector<unsigned char>;`
a sequence of bytes. -/
abbrev Buffer := List Nat

/-- `pack` from buffer.h: a fixed-layout value `V` of type `T` is modelled by
its in-memory object representation, a list of `sizeof(T)` bytes.
`pack` copies exactly those bytes into a fresh `Buffer`
(`Buffer { ptr, ptr + sizeof(T) }` where `ptr` points at the value). -/
def pack (v : List Nat) : Buffer := v

/-- `unpack<T>` from buffer.h: `*reinterpret_cast<const T*>(buf.data())`
reads the leading `sizeof(T)` bytes of the buffer as the object
representation of the result; `n` stands for `sizeof(T)`. -/
def unpack (n : Nat) (buf : Buffer) : List Nat := buf.take n

namespace gatt

namespace notifications

/-- `gatt::notifications::enable` from gattclient.h:
`const Buffer enable{ 0x1, 0x0 };`. -/
def enable : Buffer := [0x1, 0x0]

/-- `gatt::notifications::disable` from gattclient.h:
`const Buffer disable{ 0x0, 0x0 };`. -/
def disable : Buffer := [0x0, 0x0]

end notifications

/-- `Address` from gattclient.h: `std::array<std::uint8_t, 6>`, a fixed
6-byte device identifier; the fixed length 6 is carried as a hypothesis. -/
abbrev Address := List Nat

/-- The error taxonomy of the GATT layer: the *disconnected* condition
(`DisconnectedException` in gattclient.h), the *not connected* condition,
and transport failure. -/
inductive GattError
  | disconnected
  | notConnected
  | transportError
deriving DecidableEq

/-- Modelled from the spec: an inbound frame from the Adapter Command Client
is either the direct synchronous response to the most recently issued
command, or an asynchronous Event — an attribute-value notification
(attribute handle, raw value bytes) or a disconnection for a Connection
Handle. The bodies of the `gatt::Client` methods are not in the source
headers, so the frame stream is scripted. -/
inductive Frame
  | response (value : Buffer)
  | valueEvent (handle : Nat) (payload : Buffer)
  | disconnectEvent (conn : Nat)
deriving DecidableEq

/-- The `gatt::Client` state, from the member declarations in gattclient.h:
`connected_`, `address_`, `connection` and `event_queue`; `address_` and
`connection` are `Option` so that "cleared" is representable. `table` is
the remote device's characteristic table (UUID bytes, attribute handle)
reachable over the active connection, fixed while the connection is
unchanged. -/
structure ClientState where
  connected_ : Bool
  address_ : Option Address
  connection : Option Nat
  event_queue : List (Nat × Buffer)
  table : List (Buffer × Nat)
deriving DecidableEq

/-- Modelled from the spec: the receive loop inside
`gatt::Client::readAttribute` (its body is not in the source headers).
While awaiting the synchronous response it keeps consuming frames, routes
value Events into the Event Queue, returns the value once the matching
response is seen, and raises the disconnected condition — invalidating
the connection state — if a disconnection Event for the active Connection
Handle arrives first. An exhausted script stands for a blocked transport
read, reported as a transport error to keep the model total. -/
def readLoop (s : ClientState) : List Frame → Except GattError Buffer × ClientState
  | [] => (.error .transportError, s)
  | .response v :: _ => (.ok v, s)
  | .valueEvent h p :: rest =>
      readLoop { s with event_queue := s.event_queue ++ [(h, p)] } rest
  | .disconnectEvent c :: rest =>
      if s.connection = some c then
        (.error .disconnected,
          { s with connected_ := false, address_ := none, connection := none })
      else readLoop s rest

/-- Modelled from the spec: `gatt::Client::readAttribute` issues the
attribute-read command for the handle and blocks for the matching
response via the receive loop; it requires the Connected state. -/
def readAttribute (_handle : Nat) (s : ClientState) (frames : List Frame) :
    Except GattError Buffer × ClientState :=
  if s.connected_ then readLoop s frames else (.error .notConnected, s)

/-- Modelled from the spec: the receive loop inside `gatt::Client::listen`
(its body is not in the source headers). `acc` records the callback
invocations made so far, each a (handle, payload) pair. Every
attribute-value notification Event is delivered to the callback in arrival
order; a disconnection Event for the active connection terminates the loop
with the disconnected condition instead of invoking the callback. A
response frame cannot arrive while only `listen` is active and is skipped;
an exhausted script stands for a blocked transport read. -/
def listenLoop (s : ClientState) (acc : List (Nat × Buffer)) :
    List Frame → List (Nat × Buffer) × Except GattError Unit × ClientState
  | [] => (acc, .error .transportError, s)
  | .response _ :: rest => listenLoop s acc rest
  | .valueEvent h p :: rest => listenLoop s (acc ++ [(h, p)]) rest
  | .disconnectEvent c :: rest =>
      if s.connection = some c then
        (acc, .error .disconnected,
          { s with connected_ := false, address_ := none, connection := none })
      else listenLoop s acc rest

/-- Modelled from the spec: `gatt::Client::listen` first delivers any Events
already pending in the Event Queue to the callback, then drains the frame
stream; it requires the Connected state. -/
def listen (s : ClientState) (frames : List Frame) :
    List (Nat × Buffer) × Except GattError Unit × ClientState :=
  if s.connected_ then listenLoop { s with event_queue := [] } s.event_queue frames
  else ([], .error .notConnected, s)

/-- Modelled from the spec: the operations that move the connection-lifecycle
state machine — a successful `connect(address)` yielding a Connection
Handle, a failed `connect`, caller-initiated `disconnect`/`disconnectAll`,
and an event-driven disconnection observed while waiting. -/
inductive Op
  | connectOk (addr : Address) (conn : Nat)
  | connectFail
  | disconnect
  | disconnectAll
  | evtDisconnect
deriving DecidableEq

/-- Whether an operation is a disconnection (caller-initiated or
event-driven). -/
def isDisconnection : Op → Bool
  | .disconnect | .disconnectAll | .evtDisconnect => true
  | _ => false

/-- Modelled from the spec: the effect of each lifecycle operation on the
client state. A successful connect records Address and Connection Handle
and clears stale Event Queue entries; a failed connect leaves the state
unchanged; every disconnection clears Address and Connection Handle and
drops the Connected flag. -/
def step (s : ClientState) : Op → ClientState
  | .connectOk a c =>
      { s with connected_ := true, address_ := some a,
               connection := some c, event_queue := [] }
  | .connectFail => s
  | .disconnect =>
      { s with connected_ := false, address_ := none, connection := none }
  | .disconnectAll =>
      { s with connected_ := false, address_ := none, connection := none }
  | .evtDisconnect =>
      { s with connected_ := false, address_ := none, connection := none }

/-- The freshly constructed client (`connected_ = false` is the member
initializer in gattclient.h); the device table is a parameter. -/
def initState (table : List (Buffer × Nat)) : ClientState :=
  { connected_ := false, address_ := none, connection := none,
    event_queue := [], table := table }

/-- Running a sequence of lifecycle operations from a state. -/
def run (s : ClientState) (t : List Op) : ClientState := t.foldl step s

/-- Modelled from the spec: `gatt::Client::disconnect` issues the disconnect
command, transitions to Idle and clears Address/Connection Handle; safe
when already disconnected (idempotent success, not a fatal error). -/
def disconnect (s : ClientState) : Except GattError Unit × ClientState :=
  (.ok (), step s Op.disconnect)

/-- Modelled from the spec: `gatt::Client::disconnectAll`, same contract as
`disconnect` for all known Connection Handles. -/
def disconnectAll (s : ClientState) : Except GattError Unit × ClientState :=
  (.ok (), step s Op.disconnectAll)

/-- Lexicographic strict order on byte sequences: `std::less` on
`std::vector<unsigned char>`, the key comparator of
`std::map<Buffer, std::uint16_t>` (the `Characteristics` type in
gattclient.h). -/
def keyLt : List Nat → List Nat → Bool
  | [], [] => false
  | [], _ :: _ => true
  | _ :: _, [] => false
  | a :: as, b :: bs =>
      if a < b then true else if b < a then false else keyLt as bs

/-- The ordering of `std::map` entries: strictly ascending UUID keys. -/
def entryLt (p q : Buffer × Nat) : Prop := keyLt p.1 q.1 = true

/-- `std::map::insert` on the map's entry list (kept in ascending key
order): inserts at the ordered position; if the key is already present the
existing binding is kept unchanged. -/
def insertCh (k : Buffer) (v : Nat) : List (Buffer × Nat) → List (Buffer × Nat)
  | [] => [(k, v)]
  | (k', v') :: t =>
      if keyLt k k' then (k, v) :: (k', v') :: t
      else if keyLt k' k then (k', v') :: insertCh k v t
      else (k', v') :: t

/-- `Characteristics` from gattclient.h:
`using Characteristics = std::map<Buffer, std::uint16_t>;` modelled by its
entry list in ascending key order. -/
abbrev Characteristics := List (Buffer × Nat)

/-- Building a `Characteristics` map by inserting a sequence of
(UUID, handle) bindings in order, as discovery produces them. -/
def buildMap (l : List (Buffer × Nat)) : Characteristics :=
  l.foldl (fun m p => insertCh p.1 p.2 m) []

/-- Modelled from the spec: `gatt::Client::characteristics` performs
attribute-group discovery over the full handle range of the active
connection, resolving every characteristic UUID of the device's table to
its handle; requires the Connected state, fails with *not connected*
otherwise, and does not change the client state. -/
def characteristics (s : ClientState) :
    Except GattError Characteristics × ClientState :=
  if s.connected_ then (.ok (buildMap s.table), s)
  else (.error .notConnected, s)

/-- One hexadecimal digit character for a value below 16
(`std::hex` lowercase digits). -/
def hexDigit (n : Nat) : Char :=
  if n < 10 then Char.ofNat (48 + n) else Char.ofNat (87 + n)

/-- The two-digit hexadecimal group of one byte. -/
def hexByte (b : Nat) : String :=
  ⟨[hexDigit (b / 16), hexDigit (b % 16)]⟩

/-- Whether a character is a lowercase hexadecimal digit. -/
def isHexChar (c : Char) : Bool :=
  (Char.ofNat 48 ≤ c && c ≤ Char.ofNat 57) ||
    (Char.ofNat 97 ≤ c && c ≤ Char.ofNat 102)

/-- Joining string groups with a colon separator between consecutive
groups. -/
def joinColon : List String → String
  | [] => ""
  | [s] => s
  | s :: rest => s ++ ":" ++ joinColon rest

/-- Modelled from the spec: `print_address` (declared in gattclient.h, body
not in the source headers) formats an Address as the colon-separated
two-digit lowercase hexadecimal groups of its bytes, in stored order. -/
def print_address (a : Address) : String :=
  joinColon (a.map hexByte)

instance : IsAntisymm (Buffer × Nat) entryLt where
  antisymm a b h1 h2 := by
    exfalso
    revert h1 h2
    unfold entryLt
    generalize a.1 = x
    generalize b.1 = y
    induction x generalizing y with
    | nil =>
      intro h1 h2
      cases y with
      | nil => simp [keyLt] at h1
      | cons z zs => simp [keyLt] at h2
    | cons d ds ih =>
      intro h1 h2
      cases y with
      | nil => simp [keyLt] at h1
      | cons e es =>
        by_cases hde : d < e <;> by_cases hed : e < d <;>
          simp [keyLt, hde, hed] at h1 h2
        · omega
        · exact ih es h1 h2

end gatt

/-- C4: For every fixed-layout value V of type T, `unpack<T>(pack(V))` yields a
value whose byte representation equals V's byte representation byte for byte.
A value of a fixed-layout type with `sizeof(T) = n` is modelled by its
`n`-byte object representation `v`. -/
theorem unpack_pack_roundtrip (n : Nat) (v : List Nat) (hlen : v.length = n) :
    unpack n (pack v) = v := by
  unfold unpack pack
  rw [← hlen]
  exact List.take_length v

/-- Witness for C4: the round trip at a concrete 3-byte value. -/
theorem unpack_pack_roundtrip_witness :
    ([0x12, 0x34, 0x56] : List Nat).length = 3 ∧
      unpack 3 (pack [0x12, 0x34, 0x56]) = [0x12, 0x34, 0x56] :=
  ⟨by decide, unpack_pack_roundtrip 3 [0x12, 0x34, 0x56] (by decide)⟩

/-- C5: For every buffer of length at least `sizeof(T) = n`, `unpack` is
well-defined (it reads exactly the leading `n` bytes, so its result has
length `n`), its result is determined solely by the leading `n` bytes
(buffers agreeing there unpack equally), and trailing bytes beyond `n`
never influence the result. -/
theorem unpack_leading_bytes_determine (n : Nat) (b1 b2 : Buffer)
    (h1 : n ≤ List.length b1) (h2 : n ≤ List.length b2)
    (hagree : List.take n b1 = List.take n b2) :
    (unpack n b1).length = n ∧ unpack n b1 = unpack n b2 ∧
      ∀ extra : List Nat, unpack n (b1 ++ extra) = unpack n b1 := by
  refine ⟨?_, ?_, ?_⟩
  · simpa [unpack] using List.length_take_of_le h1
  · simpa [unpack] using hagree
  · intro extra
    simp only [unpack]
    exact List.take_append_of_le_length h1

/-- Witness for C5: two concrete buffers agreeing on their leading 2 bytes. -/
theorem unpack_leading_bytes_determine_witness :
    2 ≤ List.length ([7, 8, 9] : List Nat) ∧
      2 ≤ List.length ([7, 8] : List Nat) ∧
      List.take 2 ([7, 8, 9] : List Nat) = List.take 2 ([7, 8] : List Nat) ∧
      ((unpack 2 [7, 8, 9]).length = 2 ∧ unpack 2 [7, 8, 9] = unpack 2 [7, 8] ∧
        ∀ extra : List Nat, unpack 2 ([7, 8, 9] ++ extra) = unpack 2 [7, 8, 9]) :=
  ⟨by decide, by decide, by decide,
    unpack_leading_bytes_determine 2 [7, 8, 9] [7, 8] (by decide) (by decide) (by decide)⟩

/-- C9: the two notification control values are fixed 2-byte payloads:
each has length exactly 2, they are distinct, and concretely
`enable = [0x01, 0x00]` and `disable = [0x00, 0x00]`. -/
theorem notification_values_fixed :
    (gatt.notifications.enable : List Nat).length = 2 ∧
      (gatt.notifications.disable : List Nat).length = 2 ∧
      gatt.notifications.enable ≠ gatt.notifications.disable ∧
      gatt.notifications.enable = ([0x01, 0x00] : List Nat) ∧
      gatt.notifications.disable = ([0x00, 0x00] : List Nat) := by
  refine ⟨rfl, rfl, by decide, rfl, rfl⟩

namespace gatt

theorem readLoop_preempted (c : Nat) (pre rest : List Frame) :
    ∀ s : ClientState, s.connection = some c →
      (∀ f ∈ pre, ∃ h p, f = Frame.valueEvent h p) →
      (readLoop s (pre ++ Frame.disconnectEvent c :: rest)).1 =
          Except.error GattError.disconnected ∧
        (readLoop s (pre ++ Frame.disconnectEvent c :: rest)).2.connected_ = false := by
  induction pre with
  | nil =>
    intro s hc _
    simp [readLoop, hc]
  | cons f tail ih =>
    intro s hc hpre
    obtain ⟨h, p, rfl⟩ := hpre f (by simp)
    have htail : ∀ g ∈ tail, ∃ h p, g = Frame.valueEvent h p := fun g hg =>
      hpre g (by simp [hg])
    simpa [readLoop] using
      ih { s with event_queue := s.event_queue ++ [(h, p)] } hc htail

/-- C1: if, while `readAttribute` awaits its synchronous response, a
disconnection Event for the active Connection Handle arrives instead of the
expected response (only asynchronous value Events precede it), then
`readAttribute` raises the disconnected condition, `connected()` is false
afterwards, and no value is returned. -/
theorem readAttribute_disconnect_preempts (s : ClientState) (c handle : Nat)
    (pre rest : List Frame) (hconn : s.connected_ = true)
    (hc : s.connection = some c)
    (hpre : ∀ f ∈ pre, ∃ h p, f = Frame.valueEvent h p) :
    (readAttribute handle s (pre ++ Frame.disconnectEvent c :: rest)).1 =
        Except.error GattError.disconnected ∧
      (readAttribute handle s (pre ++ Frame.disconnectEvent c :: rest)).2.connected_ =
        false := by
  have := readLoop_preempted c pre rest s hc hpre
  simpa [readAttribute, hconn] using this

/-- Witness for C1: a concrete connected client whose script delivers one
value Event and then a disconnection for the active Connection Handle. -/
theorem readAttribute_disconnect_preempts_witness :
    (let s : ClientState :=
      { connected_ := true, address_ := some [1, 2, 3, 4, 5, 6],
        connection := some 0, event_queue := [], table := [] }
    s.connected_ = true ∧ s.connection = some 0 ∧
      (readAttribute 7 s [Frame.valueEvent 9 [1], Frame.disconnectEvent 0]).1 =
          Except.error GattError.disconnected ∧
        (readAttribute 7 s [Frame.valueEvent 9 [1], Frame.disconnectEvent 0]).2.connected_ =
          false) := by
  refine ⟨rfl, rfl, ?_⟩
  exact readAttribute_disconnect_preempts _ 0 7 [Frame.valueEvent 9 [1]] []
    rfl rfl (by intro f hf; simp at hf; exact ⟨9, [1], hf⟩)

theorem listenLoop_delivers_in_order (c : Nat) (s : ClientState)
    (hc : s.connection = some c) (evs : List (Nat × Buffer))
    (rest : List Frame) :
    ∀ acc : List (Nat × Buffer),
      (listenLoop s acc
          ((evs.map fun e => Frame.valueEvent e.1 e.2) ++
            Frame.disconnectEvent c :: rest)).1 = acc ++ evs := by
  induction evs with
  | nil => intro acc; simp [listenLoop, hc]
  | cons e tail ih =>
    intro acc
    simpa [listenLoop] using ih (acc ++ [e])

/-- C2: while `listen(callback)` is active (empty pending queue), for every
sequence of attribute-value notification Events E1..En arriving from the
transport before the connection ends, the callback is invoked exactly once
per Event, in the exact arrival order, with the handle and payload bytes of
each Event unmodified: the invocation list equals the event list. -/
theorem listen_callback_order (s : ClientState) (c : Nat)
    (evs : List (Nat × Buffer)) (rest : List Frame)
    (hconn : s.connected_ = true) (hc : s.connection = some c)
    (hq : s.event_queue = []) :
    (listen s
        ((evs.map fun e => Frame.valueEvent e.1 e.2) ++
          Frame.disconnectEvent c :: rest)).1 = evs := by
  have := listenLoop_delivers_in_order c { s with event_queue := [] } hc evs rest []
  simpa [listen, hconn, hq] using this

/-- Witness for C2: a concrete connected client receiving three notification
Events followed by a disconnection; the callback sees exactly those three
Events in order. -/
theorem listen_callback_order_witness :
    (let s : ClientState :=
      { connected_ := true, address_ := some [1, 2, 3, 4, 5, 6],
        connection := some 3, event_queue := [], table := [] }
    s.connected_ = true ∧ s.connection = some 3 ∧ s.event_queue = [] ∧
      (listen s
          (([(10, [1]), (11, [2, 3]), (10, [4])].map
              fun e => Frame.valueEvent e.1 e.2) ++
            Frame.disconnectEvent 3 :: [])).1 =
        [(10, [1]), (11, [2, 3]), (10, [4])]) :=
  ⟨rfl, rfl, rfl,
    listen_callback_order _ 3 [(10, [1]), (11, [2, 3]), (10, [4])] [] rfl rfl rfl⟩

/-- C7: calling `disconnect()` or `disconnectAll()` when the client is already
disconnected is safe: both complete as idempotent successes (no fatal
error), and afterwards the client is Idle with Address and Connection
Handle cleared. -/
theorem disconnect_when_idle_safe (s : ClientState) (h : s.connected_ = false) :
    (disconnect s).1 = Except.ok () ∧ (disconnect s).2.connected_ = false ∧
      (disconnect s).2.address_ = none ∧ (disconnect s).2.connection = none ∧
      (disconnectAll s).1 = Except.ok () ∧
      (disconnectAll s).2.connected_ = false ∧
      (disconnectAll s).2.address_ = none ∧
      (disconnectAll s).2.connection = none := by
  simp [disconnect, disconnectAll, step]

/-- Witness for C7: a concrete already-disconnected client. -/
theorem disconnect_when_idle_safe_witness :
    (let s : ClientState :=
      { connected_ := false, address_ := none, connection := none,
        event_queue := [], table := [] }
    s.connected_ = false ∧
      ((disconnect s).1 = Except.ok () ∧ (disconnect s).2.connected_ = false ∧
        (disconnect s).2.address_ = none ∧ (disconnect s).2.connection = none ∧
        (disconnectAll s).1 = Except.ok () ∧
        (disconnectAll s).2.connected_ = false ∧
        (disconnectAll s).2.address_ = none ∧
        (disconnectAll s).2.connection = none)) :=
  ⟨rfl, disconnect_when_idle_safe _ rfl⟩

/-- C6: calling `characteristics()` twice on the same unchanged connection
yields two Characteristics maps with identical key-to-handle bindings. -/
theorem characteristics_idempotent (s s1 s2 : ClientState)
    (m1 m2 : Characteristics)
    (h1 : characteristics s = (Except.ok m1, s1))
    (h2 : characteristics s1 = (Except.ok m2, s2)) : m1 = m2 := by
  cases hcs : s.connected_ with
  | false =>
    rw [characteristics, hcs] at h1
    simp at h1
  | true =>
    rw [characteristics, hcs] at h1
    simp at h1
    obtain ⟨hm1, hs1⟩ := h1
    subst hs1
    rw [characteristics, hcs] at h2
    simp at h2
    rw [← hm1, ← h2.1]

/-- Witness for C6: a connected client over a one-entry device table; two
consecutive `characteristics()` calls return the same map. -/
theorem characteristics_idempotent_witness :
    (let s : ClientState :=
      { connected_ := true, address_ := some [1, 2, 3, 4, 5, 6],
        connection := some 0, event_queue := [], table := [([0x2a, 0x00], 3)] }
    characteristics s = (Except.ok [([0x2a, 0x00], 3)], s) ∧
      ([([0x2a, 0x00], 3)] : Characteristics) = [([0x2a, 0x00], 3)]) :=
  ⟨rfl,
    characteristics_idempotent
      { connected_ := true, address_ := some [1, 2, 3, 4, 5, 6],
        connection := some 0, event_queue := [], table := [([0x2a, 0x00], 3)] }
      { connected_ := true, address_ := some [1, 2, 3, 4, 5, 6],
        connection := some 0, event_queue := [], table := [([0x2a, 0x00], 3)] }
      { connected_ := true, address_ := some [1, 2, 3, 4, 5, 6],
        connection := some 0, event_queue := [], table := [([0x2a, 0x00], 3)] }
      [([0x2a, 0x00], 3)] [([0x2a, 0x00], 3)] rfl rfl⟩

theorem append_singleton_decomp {α : Type} {t t1 t2 : List α} {x y : α}
    (h : t ++ [x] = t1 ++ y :: t2) :
    (t2 = [] ∧ t = t1 ∧ y = x) ∨
      ∃ t2', t2 = t2' ++ [x] ∧ t = t1 ++ y :: t2' := by
  rcases List.eq_nil_or_concat t2 with rfl | ⟨t2', z, rfl⟩
  · left
    obtain ⟨h3, h4⟩ := List.append_inj' h (by simp)
    refine ⟨rfl, h3, ?_⟩
    simpa using h4.symm
  · right
    simp only [List.concat_eq_append] at h ⊢
    have h' : t ++ [x] = (t1 ++ y :: t2') ++ [z] := by
      simpa using h
    obtain ⟨h3, h4⟩ := List.append_inj' h' (by simp)
    have hxz : x = z := by simpa using h4
    exact ⟨t2', by rw [hxz], h3⟩

theorem decomp_append_nonconnect (t : List Op) (x : Op)
    (hx : ∀ a c, x ≠ Op.connectOk a c) (hxd : isDisconnection x = false) :
    ((∃ t1 a c t2, t ++ [x] = t1 ++ Op.connectOk a c :: t2 ∧
        ∀ op ∈ t2, isDisconnection op = false) ↔
      ∃ t1 a c t2, t = t1 ++ Op.connectOk a c :: t2 ∧
        ∀ op ∈ t2, isDisconnection op = false) := by
  constructor
  · rintro ⟨t1, a, c, t2, heq, hclean⟩
    rcases append_singleton_decomp heq with ⟨rfl, rfl, hy⟩ | ⟨t2', rfl, rfl⟩
    · exact absurd hy.symm (hx a c)
    · exact ⟨t1, a, c, t2', rfl, fun op hop => hclean op (by simp [hop])⟩
  · rintro ⟨t1, a, c, t2, rfl, hclean⟩
    refine ⟨t1, a, c, t2 ++ [x], by simp, ?_⟩
    intro op hop
    rcases List.mem_append.mp hop with hmem | hmem
    · exact hclean op hmem
    · simp at hmem
      subst hmem
      exact hxd

theorem no_decomp_append_disconnection (t : List Op) (x : Op)
    (hxd : isDisconnection x = true) :
    ¬ ∃ t1 a c t2, t ++ [x] = t1 ++ Op.connectOk a c :: t2 ∧
        ∀ op ∈ t2, isDisconnection op = false := by
  rintro ⟨t1, a, c, t2, heq, hclean⟩
  rcases append_singleton_decomp heq with ⟨rfl, rfl, hy⟩ | ⟨t2', rfl, rfl⟩
  · rw [← hy] at hxd
    simp [isDisconnection] at hxd
  · have := hclean x (by simp)
    rw [hxd] at this
    cases this

/-- C3: in every reachable state of a GATT Client, `connected()` is true
exactly when the operation trace decomposes as a successful connect
followed only by non-disconnection operations: false before any successful
connect and after any `disconnect`/`disconnectAll` or event-driven
disconnection, true strictly between a successful connect and the next
disconnection. -/
theorem connected_iff_after_connect_no_disconnect
    (table : List (Buffer × Nat)) (t : List Op) :
    (run (initState table) t).connected_ = true ↔
      ∃ t1 a c t2, t = t1 ++ Op.connectOk a c :: t2 ∧
        ∀ op ∈ t2, isDisconnection op = false := by
  induction t using List.reverseRecOn with
  | nil =>
    simp only [run, List.foldl_nil]
    constructor
    · intro h
      simp [initState] at h
    · rintro ⟨t1, a, c, t2, heq, -⟩
      cases t1 <;> simp at heq
  | append_singleton t op ih =>
    have hrun : run (initState table) (t ++ [op]) =
        step (run (initState table) t) op := by
      simp [run, List.foldl_append]
    rw [hrun]
    cases op with
    | connectOk a c =>
      simp only [step]
      constructor
      · intro _
        exact ⟨t, a, c, [], rfl, by simp⟩
      · intro _
        trivial
    | connectFail =>
      have hstep : step (run (initState table) t) Op.connectFail =
          run (initState table) t := rfl
      rw [hstep, ih]
      exact (decomp_append_nonconnect t Op.connectFail
        (fun a c h => by cases h) rfl).symm
    | disconnect =>
      simp only [step]
      constructor
      · intro h
        cases h
      · intro h
        exact absurd h (no_decomp_append_disconnection t Op.disconnect rfl)
    | disconnectAll =>
      simp only [step]
      constructor
      · intro h
        cases h
      · intro h
        exact absurd h (no_decomp_append_disconnection t Op.disconnectAll rfl)
    | evtDisconnect =>
      simp only [step]
      constructor
      · intro h
        cases h
      · intro h
        exact absurd h (no_decomp_append_disconnection t Op.evtDisconnect rfl)

theorem keyLt_trans (a : List Nat) : ∀ b c : List Nat, keyLt a b = true →
    keyLt b c = true → keyLt a c = true := by
  induction a with
  | nil =>
    intro b c h1 h2
    cases b with
    | nil => simp [keyLt] at h1
    | cons y bs =>
      cases c with
      | nil => simp [keyLt] at h2
      | cons z cs => rfl
  | cons x as ih =>
    intro b c h1 h2
    cases b with
    | nil => simp [keyLt] at h1
    | cons y bs =>
      cases c with
      | nil => simp [keyLt] at h2
      | cons z cs =>
        simp only [keyLt] at h1 h2 ⊢
        by_cases hxy : x < y
        · by_cases hyz : y < z
          · simp [show x < z from by omega]
          · rw [if_neg hyz] at h2
            by_cases hzy : z < y
            · rw [if_pos hzy] at h2
              cases h2
            · simp [show x < z from by omega]
        · rw [if_neg hxy] at h1
          by_cases hyx : y < x
          · rw [if_pos hyx] at h1
            cases h1
          · rw [if_neg hyx] at h1
            by_cases hyz : y < z
            · simp [show x < z from by omega]
            · rw [if_neg hyz] at h2
              by_cases hzy : z < y
              · rw [if_pos hzy] at h2
                cases h2
              · rw [if_neg hzy] at h2
                have hxz : ¬ x < z := by omega
                have hzx : ¬ z < x := by omega
                rw [if_neg hxz, if_neg hzx]
                exact ih bs cs h1 h2

theorem keyLt_conn (a : List Nat) : ∀ b : List Nat, keyLt a b = false →
    keyLt b a = false → a = b := by
  induction a with
  | nil =>
    intro b h1 _
    cases b with
    | nil => rfl
    | cons y bs => simp [keyLt] at h1
  | cons x as ih =>
    intro b h1 h2
    cases b with
    | nil => simp [keyLt] at h2
    | cons y bs =>
      simp only [keyLt] at h1 h2
      by_cases hxy : x < y
      · rw [if_pos hxy] at h1
        cases h1
      · rw [if_neg hxy] at h1
        by_cases hyx : y < x
        · rw [if_pos hyx] at h2
          cases h2
        · rw [if_neg hyx] at h1
          rw [if_neg hyx, if_neg hxy] at h2
          have hxy' : x = y := by omega
          rw [hxy', ih bs h1 h2]

theorem mem_insertCh (k : Buffer) (v : Nat) :
    ∀ l : List (Buffer × Nat), ∀ q ∈ insertCh k v l, q = (k, v) ∨ q ∈ l := by
  intro l
  induction l with
  | nil =>
    intro q hq
    simp [insertCh] at hq
    exact Or.inl hq
  | cons p t ih =>
    intro q hq
    obtain ⟨k', v'⟩ := p
    simp only [insertCh] at hq
    by_cases h1 : keyLt k k' = true
    · rw [if_pos h1] at hq
      rcases List.mem_cons.mp hq with h | h
      · exact Or.inl h
      · exact Or.inr h
    · rw [if_neg h1] at hq
      by_cases h2 : keyLt k' k = true
      · rw [if_pos h2] at hq
        rcases List.mem_cons.mp hq with h | h
        · exact Or.inr (by simp [h])
        · rcases ih q h with h' | h'
          · exact Or.inl h'
          · exact Or.inr (by simp [h'])
      · rw [if_neg h2] at hq
        exact Or.inr hq

theorem insertCh_sorted (k : Buffer) (v : Nat) :
    ∀ l : List (Buffer × Nat), l.Pairwise entryLt →
      (insertCh k v l).Pairwise entryLt := by
  intro l
  induction l with
  | nil =>
    intro _
    simp [insertCh]
  | cons p t ih =>
    intro hs
    obtain ⟨k', v'⟩ := p
    rw [List.pairwise_cons] at hs
    obtain ⟨hhead, htail⟩ := hs
    simp only [insertCh]
    by_cases h1 : keyLt k k' = true
    · rw [if_pos h1, List.pairwise_cons]
      constructor
      · intro q hq
        rcases List.mem_cons.mp hq with rfl | hq'
        · exact h1
        · exact keyLt_trans k k' q.1 h1 (hhead q hq')
      · rw [List.pairwise_cons]
        exact ⟨hhead, htail⟩
    · rw [if_neg h1]
      by_cases h2 : keyLt k' k = true
      · rw [if_pos h2, List.pairwise_cons]
        constructor
        · intro q hq
          rcases mem_insertCh k v t q hq with rfl | hq'
          · exact h2
          · exact hhead q hq'
        · exact ih htail
      · rw [if_neg h2, List.pairwise_cons]
        exact ⟨hhead, htail⟩

theorem insertCh_perm (k : Buffer) (v : Nat) :
    ∀ l : List (Buffer × Nat), k ∉ l.map Prod.fst →
      List.Perm (insertCh k v l) ((k, v) :: l) := by
  intro l
  induction l with
  | nil =>
    intro _
    exact List.Perm.refl _
  | cons p t ih =>
    intro hk
    obtain ⟨k', v'⟩ := p
    simp only [List.map_cons, List.mem_cons] at hk
    push_neg at hk
    obtain ⟨hkk', hkt⟩ := hk
    simp only [insertCh]
    by_cases h1 : keyLt k k' = true
    · rw [if_pos h1]
    · rw [if_neg h1]
      by_cases h2 : keyLt k' k = true
      · rw [if_pos h2]
        exact ((ih hkt).cons _).trans (List.Perm.swap _ _ _)
      · exfalso
        rw [Bool.not_eq_true] at h1 h2
        exact hkk' (keyLt_conn k k' h1 h2)

theorem foldl_insertCh_sorted :
    ∀ l acc : List (Buffer × Nat), acc.Pairwise entryLt →
      (List.foldl (fun m p => insertCh p.1 p.2 m) acc l).Pairwise entryLt := by
  intro l
  induction l with
  | nil =>
    intro acc h
    simpa using h
  | cons p t ih =>
    intro acc h
    simp only [List.foldl_cons]
    exact ih _ (insertCh_sorted p.1 p.2 acc h)

theorem foldl_insertCh_perm :
    ∀ l acc : List (Buffer × Nat),
      (l.map Prod.fst ++ acc.map Prod.fst).Nodup →
      List.Perm (List.foldl (fun m p => insertCh p.1 p.2 m) acc l) (l ++ acc) := by
  intro l
  induction l with
  | nil =>
    intro acc _
    simp
  | cons p t ih =>
    intro acc h
    simp only [List.map_cons, List.cons_append, List.nodup_cons] at h
    obtain ⟨hp, h'⟩ := h
    have hpacc : p.1 ∉ acc.map Prod.fst := fun hmem =>
      hp (List.mem_append.mpr (Or.inr hmem))
    have hins : List.Perm (insertCh p.1 p.2 acc) (p :: acc) := by
      simpa using insertCh_perm p.1 p.2 acc hpacc
    have hkeys : List.Perm ((insertCh p.1 p.2 acc).map Prod.fst)
        (p.1 :: acc.map Prod.fst) := by
      simpa using hins.map Prod.fst
    have hperm2 : List.Perm (t.map Prod.fst ++ (insertCh p.1 p.2 acc).map Prod.fst)
        (p.1 :: (t.map Prod.fst ++ acc.map Prod.fst)) :=
      (List.Perm.append_left _ hkeys).trans List.perm_middle
    have hnodup' : (t.map Prod.fst ++ (insertCh p.1 p.2 acc).map Prod.fst).Nodup :=
      (hperm2.nodup_iff).mpr (List.nodup_cons.mpr ⟨hp, h'⟩)
    simp only [List.foldl_cons]
    exact (ih _ hnodup').trans ((List.Perm.append_left t hins).trans List.perm_middle)

/-- C10: Characteristics-map equality is independent of insertion order: for
any two binding sequences that are permutations of each other with pairwise
distinct UUID keys, the maps built from them are equal, since the map keeps
keys unique and ordered lexicographically by UUID bytes. -/
theorem buildMap_insertion_order_independent (l1 l2 : List (Buffer × Nat))
    (hperm : List.Perm l1 l2) (hnodup : (l1.map Prod.fst).Nodup) :
    buildMap l1 = buildMap l2 := by
  have hnodup2 : (l2.map Prod.fst).Nodup := ((hperm.map Prod.fst).nodup_iff).mp hnodup
  have p1 : List.Perm (buildMap l1) l1 := by
    have := foldl_insertCh_perm l1 [] (by simpa using hnodup)
    simpa [buildMap] using this
  have p2 : List.Perm (buildMap l2) l2 := by
    have := foldl_insertCh_perm l2 [] (by simpa using hnodup2)
    simpa [buildMap] using this
  have s1 : List.Sorted entryLt (buildMap l1) := foldl_insertCh_sorted l1 [] (by simp)
  have s2 : List.Sorted entryLt (buildMap l2) := foldl_insertCh_sorted l2 [] (by simp)
  exact List.eq_of_perm_of_sorted (p1.trans (hperm.trans p2.symm)) s1 s2

/-- Witness for C10: the same two bindings inserted in both orders build the
same map. -/
theorem buildMap_insertion_order_independent_witness :
    List.Perm ([([1], 5), ([2], 7)] : List (Buffer × Nat)) [([2], 7), ([1], 5)] ∧
      (([([1], 5), ([2], 7)] : List (Buffer × Nat)).map Prod.fst).Nodup ∧
      buildMap [([1], 5), ([2], 7)] = buildMap [([2], 7), ([1], 5)] :=
  ⟨by decide, by decide,
    buildMap_insertion_order_independent [([1], 5), ([2], 7)] [([2], 7), ([1], 5)]
      (by decide) (by decide)⟩

theorem hexDigit_isHex : ∀ n, n < 16 → isHexChar (hexDigit n) = true := by decide

/-- C8: for every Address (six bytes), `print_address` produces exactly 17
characters: six groups of two lowercase hexadecimal digits separated by
five colons, where the groups are the bytes of the Address in their stored
order. -/
theorem print_address_format (a : Address) (h6 : a.length = 6)
    (hb : ∀ b ∈ a, b < 256) :
    (print_address a).length = 17 ∧
      (print_address a).data =
        List.intercalate [':'] (a.map fun b => (hexByte b).data) ∧
      ∀ b ∈ a, (hexByte b).length = 2 ∧ (hexByte b).data.all isHexChar = true := by
  refine ⟨?_, ?_, ?_⟩
  · rcases a with _ | ⟨b0, a⟩
    · simp at h6
    rcases a with _ | ⟨b1, a⟩
    · simp at h6
    rcases a with _ | ⟨b2, a⟩
    · simp at h6
    rcases a with _ | ⟨b3, a⟩
    · simp at h6
    rcases a with _ | ⟨b4, a⟩
    · simp at h6
    rcases a with _ | ⟨b5, a⟩
    · simp at h6
    rcases a with _ | ⟨b6, a⟩
    · simp [print_address, joinColon, hexByte, String.length_append,
        show (":" : String).length = 1 from rfl,
        show ∀ c1 c2 : Char, (⟨[c1, c2]⟩ : String).length = 2 from fun _ _ => rfl]
    · simp at h6
  · rcases a with _ | ⟨b0, a⟩
    · simp at h6
    rcases a with _ | ⟨b1, a⟩
    · simp at h6
    rcases a with _ | ⟨b2, a⟩
    · simp at h6
    rcases a with _ | ⟨b3, a⟩
    · simp at h6
    rcases a with _ | ⟨b4, a⟩
    · simp at h6
    rcases a with _ | ⟨b5, a⟩
    · simp at h6
    rcases a with _ | ⟨b6, a⟩
    · simp [print_address, joinColon, List.intercalate, List.intersperse,
        String.data_append, show (":" : String).data = [':'] from rfl]
    · simp at h6
  · intro b hbmem
    refine ⟨rfl, ?_⟩
    have hb256 : b < 256 := hb b hbmem
    have hdiv : b / 16 < 16 := Nat.div_lt_of_lt_mul (by omega)
    have hmod : b % 16 < 16 := Nat.mod_lt _ (by omega)
    simp [hexByte, hexDigit_isHex _ hdiv, hexDigit_isHex _ hmod]

/-- Witness for C8: `print_address` at the concrete address
aa:bb:cc:dd:ee:ff. -/
theorem print_address_format_witness :
    ([0xaa, 0xbb, 0xcc, 0xdd, 0xee, 0xff] : Address).length = 6 ∧
      (∀ b ∈ ([0xaa, 0xbb, 0xcc, 0xdd, 0xee, 0xff] : Address), b < 256) ∧
      ((print_address [0xaa, 0xbb, 0xcc, 0xdd, 0xee, 0xff]).length = 17 ∧
        (print_address [0xaa, 0xbb, 0xcc, 0xdd, 0xee, 0xff]).data =
          List.intercalate [':']
            (([0xaa, 0xbb, 0xcc, 0xdd, 0xee, 0xff] : Address).map
              fun b => (hexByte b).data) ∧
        ∀ b ∈ ([0xaa, 0xbb, 0xcc, 0xdd, 0xee, 0xff] : Address),
          (hexByte b).length = 2 ∧ (hexByte b).data.all isHexChar = true) :=
  ⟨by decide, by decide,
    print_address_format [0xaa, 0xbb, 0xcc, 0xdd, 0xee, 0xff] (by decide) (by decide)⟩

end gatt

end MyoLinux
